import Mathlib

/-!
Verification development for the ijson-rust streaming JSON parser.

The repository is embedded shallowly:

* Rust byte slices and `Vec<u8>` become `List Nat` (each element a byte value);
  a Rust `String` is represented by its UTF-8 byte sequence (`List Nat`), which
  is faithful since Rust strings are exactly UTF-8 byte vectors.
* `f64` number values are modelled as exact rationals (`ℚ`); the concrete values
  exercised here (integers below 2^53, halves, powers of ten) are exactly
  representable as doubles, so the rational model agrees with the IEEE-754
  computation the code performs on them.
* Iterators become explicit state-passing step functions; the `loop` in
  `Parser::next` is translated with a fuel parameter so that all definitions
  are structurally recursive and computable by `decide`/`rfl`.  Fuel exhaustion
  is a distinguished outcome that is never reached for the fuel bounds used.
* A Rust `panic!` (and equally an out-of-bounds index / integer-underflow
  abort) is modelled as a distinguished `panicked` outcome.
-/

/-- Continuation byte test for UTF-8 validation: 0x80..0xBF. -/
def utf8Cont (b : Nat) : Bool := 128 ≤ b && b ≤ 191

/-- One validation pass of `str::from_utf8` (the standard UTF-8 well-formedness
check, including the surrogate and overlong exclusions), written with explicit
fuel so it is structurally recursive.  Fuel `l.length` always suffices since
every step consumes at least one byte. -/
def utf8ValidGo : Nat → List Nat → Bool
  | 0, l => l.isEmpty
  | _ + 1, [] => true
  | fuel + 1, b :: r =>
    if b ≤ 127 then utf8ValidGo fuel r
    else if 194 ≤ b && b ≤ 223 then
      match r with
      | c :: r2 => utf8Cont c && utf8ValidGo fuel r2
      | [] => false
    else if b = 224 then
      match r with
      | c :: d :: r2 => (160 ≤ c && c ≤ 191) && utf8Cont d && utf8ValidGo fuel r2
      | _ => false
    else if 225 ≤ b && b ≤ 236 then
      match r with
      | c :: d :: r2 => utf8Cont c && utf8Cont d && utf8ValidGo fuel r2
      | _ => false
    else if b = 237 then
      match r with
      | c :: d :: r2 => (128 ≤ c && c ≤ 159) && utf8Cont d && utf8ValidGo fuel r2
      | _ => false
    else if 238 ≤ b && b ≤ 239 then
      match r with
      | c :: d :: r2 => utf8Cont c && utf8Cont d && utf8ValidGo fuel r2
      | _ => false
    else if b = 240 then
      match r with
      | c :: d :: e :: r2 => (144 ≤ c && c ≤ 191) && utf8Cont d && utf8Cont e && utf8ValidGo fuel r2
      | _ => false
    else if 241 ≤ b && b ≤ 243 then
      match r with
      | c :: d :: e :: r2 => utf8Cont c && utf8Cont d && utf8Cont e && utf8ValidGo fuel r2
      | _ => false
    else if b = 244 then
      match r with
      | c :: d :: e :: r2 => (128 ≤ c && c ≤ 143) && utf8Cont d && utf8Cont e && utf8ValidGo fuel r2
      | _ => false
    else false

/-- UTF-8 validity of a byte sequence, as checked by `str::from_utf8`. -/
def utf8Valid (l : List Nat) : Bool := utf8ValidGo l.length l

/-- UTF-8 encoding of a Unicode scalar value, as performed by
`char::encode_utf8` / `String::push`. -/
def utf8Encode (c : Nat) : List Nat :=
  if c ≤ 127 then [c]
  else if c ≤ 2047 then [192 + c / 64, 128 + c % 64]
  else if c ≤ 65535 then [224 + c / 4096, 128 + (c / 64) % 64, 128 + c % 64]
  else [240 + c / 262144, 128 + (c / 4096) % 64, 128 + (c / 64) % 64, 128 + c % 64]

/-- Validity test of `char::from_u32`: a scalar value below 0x110000 that is
not a surrogate (0xD800..0xDFFF). -/
def charValid (v : Nat) : Bool := v < 1114112 && !(55296 ≤ v && v ≤ 57343)

/-- Hex digit value of a byte, as computed by `(c as char).to_digit(16)`. -/
def hexDigitVal (c : Nat) : Option Nat :=
  if 48 ≤ c && c ≤ 57 then some (c - 48)
  else if 97 ≤ c && c ≤ 102 then some (c - 87)
  else if 65 ≤ c && c ≤ 70 then some (c - 55)
  else none

/-- Result values of an iterator over `Result<T, E>`: the shallow embedding of
`std::result::Result` used throughout (`errors::Result`, `parser::Result`). -/
inductive Res (ε α : Type) where
  | ok (a : α)
  | err (e : ε)
deriving DecidableEq, Repr

/-- Events emitted by the parser, from `parser.rs` (`enum Event`).  Text is
carried as UTF-8 bytes, numbers as exact rationals. -/
inductive Event where
  | null
  | boolean (b : Bool)
  | string (s : List Nat)
  | key (s : List Nat)
  | number (q : ℚ)
  | startArray
  | endArray
  | startMap
  | endMap
deriving DecidableEq, Repr

/-- Parser errors, from `parser.rs` (`enum Error`). -/
inductive PErr where
  | unexpected (s : List Nat)
  | utf8
  | escape (s : List Nat)
  | moreLexemes
  | unmatched (c : Nat)
  | lexerE
deriving DecidableEq, Repr

/-- Parser states, from `parser.rs` (`enum State`). -/
inductive PState where
  | closed
  | event (canClose : Bool)
  | key (canClose : Bool)
  | colon
  | comma
deriving DecidableEq, Repr

/-- The full parser configuration: the `Parser` struct together with its
remaining lexeme stream.  The container stack is kept most-recent-first
(`Vec::push` becomes cons, `Vec::pop` removes the head, and the Rust
`stack[stack.len() - 1]` is the head). -/
structure PSt where
  state : PState
  stack : List Nat
  lex : List (List Nat)
deriving DecidableEq, Repr

/-- Outcome of one `Parser::next` call: an emitted item together with the
successor configuration, a clean `None`, a Rust panic, or fuel exhaustion
(an artefact of the embedding, unreachable for the bounds used). -/
inductive POut where
  | emit (r : Res PErr Event) (s : PSt)
  | done
  | panicked
  | fuelOut
deriving DecidableEq, Repr

/-- The `unexpected` helper in `parser.rs`: it calls
`str::from_utf8(..).unwrap()`, so an invalid-UTF-8 lexeme would abort. -/
def unexpectedOut (lexeme : List Nat) (s : PSt) : POut :=
  if utf8Valid lexeme then .emit (.err (.unexpected lexeme)) s else .panicked

/-- The `trim` helper in `parser.rs`: `&lexeme[1..lexeme.len() - 1]`.  (On a
lexeme of length below 2 the Rust slice would abort; the lexer only produces
string lexemes carrying both surrounding quotes, so that case is unreachable
and is not modelled specially.) -/
def trimLex (l : List Nat) : List Nat := (l.drop 1).dropLast

/-- The `hexdecode` helper in `parser.rs`: fold hex digit values over the given
bytes, then convert with `char::from_u32`. -/
def hexdecodeP (l : List Nat) : Option Nat :=
  (l.foldl (fun acc c => acc.bind fun v => (hexDigitVal c).map fun d => v * 16 + d) (some 0)).bind
    fun v => if charValid v then some v else none

/-- Results of `unescape` in `parser.rs`: a decoded string (as UTF-8 bytes),
an error, or a Rust abort (out-of-bounds index / `unwrap` on invalid UTF-8). -/
inductive UnRes where
  | ok (s : List Nat)
  | err (e : PErr)
  | panicked
deriving DecidableEq, Repr

/-- Body of `unescape` (`parser.rs` lines 105-142), with fuel for structural
recursion; fuel `l.length + 1` always suffices.  Each round copies the chunk up
to the next backslash (validating it as UTF-8), then decodes one escape:
`\u` plus four hex digits via `hexdecode`/`char::from_u32`, the single-letter
escapes `b f n r t`, and `\"`/`\\`; any other escape byte is a malformed-escape
error (an escape byte at or above 0x80 aborts inside the error path's
`from_utf8(..).unwrap()`, as does a truncated input after a backslash). -/
def unescGo : Nat → List Nat → UnRes
  | 0, _ => .panicked
  | fuel + 1, l =>
    let chunk := l.takeWhile (fun b => b ≠ 92)
    let rest := l.dropWhile (fun b => b ≠ 92)
    if !utf8Valid chunk then .err .utf8
    else
      match rest with
      | [] => .ok chunk
      | _ :: after =>
        match after with
        | [] => .panicked
        | e :: r2 =>
          if e = 117 then
            if r2.length < 4 then
              if utf8Valid (e :: r2) then .err (.escape (e :: r2)) else .panicked
            else
              match hexdecodeP (r2.take 4) with
              | none => if utf8Valid (r2.take 4) then .err (.escape (r2.take 4)) else .panicked
              | some cp =>
                match unescGo fuel (r2.drop 4) with
                | .ok s => .ok (chunk ++ utf8Encode cp ++ s)
                | o => o
          else
            match
              (if e = 98 then some 8 else if e = 102 then some 12
               else if e = 110 then some 10 else if e = 114 then some 13
               else if e = 116 then some 9
               else if e = 34 || e = 92 then some e else none : Option Nat)
            with
            | none => if e ≤ 127 then .err (.escape [e]) else .panicked
            | some c =>
              match unescGo fuel r2 with
              | .ok s => .ok (chunk ++ utf8Encode c ++ s)
              | o => o

/-- The `unescape` function of `parser.rs`. -/
def unescape (l : List Nat) : UnRes := unescGo (l.length + 1) l

/-- Modelled from the source's use of `str::parse::<f64>()` (the standard
library float parser, not part of this repository): sign, integer digits,
optional fraction, optional exponent, with at least one digit around the
decimal point and a non-empty exponent; the value is returned as an exact
rational.  The special forms the standard parser also accepts (`inf`, `NaN`,
a trailing lone dot) are not reachable from any input exercised here. -/
def rustParseF64 (l : List Nat) : Option ℚ :=
  let isDigit := fun (b : Nat) => 48 ≤ b && b ≤ 57
  let digitsVal := fun (ds : List Nat) =>
    ds.foldl (fun (a : ℤ) (d : Nat) => a * 10 + ((d : ℤ) - 48)) 0
  let (neg, l1) :=
    match l with
    | 45 :: r => (true, r)
    | 43 :: r => (false, r)
    | _ => (false, l)
  let ds1 := l1.takeWhile isDigit
  let l2 := l1.dropWhile isDigit
  let (ds2, l3) :=
    match l2 with
    | 46 :: r => (r.takeWhile isDigit, r.dropWhile isDigit)
    | _ => ([], l2)
  if ds1.length + ds2.length = 0 then none
  else
    let mant : ℚ := (digitsVal (ds1 ++ ds2) : ℚ) / (10 : ℚ) ^ ds2.length
    match l3 with
    | [] => some (if neg then -mant else mant)
    | 101 :: r | 69 :: r =>
      let (eneg, r1) :=
        match r with
        | 45 :: r' => (true, r')
        | 43 :: r' => (false, r')
        | _ => (false, r)
      let ds3 := r1.takeWhile isDigit
      if ds3.length = 0 || (r1.dropWhile isDigit) ≠ [] then none
      else
        let ev : ℤ := if eneg then -(digitsVal ds3) else digitsVal ds3
        some ((if neg then -mant else mant) * (10 : ℚ) ^ ev)
    | _ => none

/-- The `process_event` function of `parser.rs` (lines 177-192): keyword and
punctuation lexemes map to their events; a lexeme starting with a quote is
unescaped into a `String` event; anything else is UTF-8-validated and parsed
as a number, a parse failure becoming an `Unexpected` error.  `none` models a
Rust abort (indexing an empty lexeme / a panic inside `unescape`). -/
def processEvent (lexeme : List Nat) : Option (Res PErr Event) :=
  if lexeme = [110, 117, 108, 108] then some (.ok .null)
  else if lexeme = [116, 114, 117, 101] then some (.ok (.boolean true))
  else if lexeme = [102, 97, 108, 115, 101] then some (.ok (.boolean false))
  else if lexeme = [91] then some (.ok .startArray)
  else if lexeme = [123] then some (.ok .startMap)
  else if lexeme = [93] then some (.ok .endArray)
  else if lexeme = [125] then some (.ok .endMap)
  else
    match lexeme.head? with
    | none => none
    | some b =>
      if b = 34 then
        match unescape (trimLex lexeme) with
        | .ok s => some (.ok (.string s))
        | .err e => some (.err e)
        | .panicked => none
      else if utf8Valid lexeme then
        match rustParseF64 lexeme with
        | some q => some (.ok (.number q))
        | none => some (.err (.unexpected lexeme))
      else some (.err .utf8)

/-- One call to `Parser::next` (`parser.rs` lines 196-277), over a pre-lexed
stream of raw byte lexemes (`consume_lexeme` takes the head, `check_lexeme`
peeks at it).  The `loop` iterations that do not return (the `Colon` and
`Comma` states, and the peeked closing brace in `Key`/`Comma`) are the
recursive calls, bounded by the fuel; fuel `2 * lex.length + 2` suffices. -/
def parserNextF : Nat → PSt → POut
  | 0, _ => .fuelOut
  | fuel + 1, s =>
    match s.state with
    | .closed =>
      match s.lex with
      | [] => .done
      | _ :: _ => .panicked
    | .event canClose =>
      match s.lex with
      | [] => .emit (.err .moreLexemes) s
      | lexeme :: rest =>
        if (lexeme = [93] || lexeme = [125]) && !canClose then
          unexpectedOut lexeme ⟨.event canClose, s.stack, rest⟩
        else if lexeme = [91] || lexeme = [123] then
          let stack2 := lexeme.headD 0 :: s.stack
          let st2 : PState := if lexeme = [91] then .event true else .key true
          match processEvent lexeme with
          | none => .panicked
          | some r => .emit r ⟨st2, stack2, rest⟩
        else if lexeme = [93] || lexeme = [125] then
          let expected : Nat := if lexeme.headD 0 = 93 then 91 else 123
          match s.stack with
          | top :: stack2 =>
            if top = expected then
              let st2 : PState := if stack2 = [] then .closed else .comma
              match processEvent lexeme with
              | none => .panicked
              | some r => .emit r ⟨st2, stack2, rest⟩
            else .emit (.err (.unmatched (lexeme.headD 0))) ⟨.event canClose, stack2, rest⟩
          | [] => .emit (.err (.unmatched (lexeme.headD 0))) ⟨.event canClose, [], rest⟩
        else
          let st2 : PState := if s.stack = [] then .closed else .comma
          match processEvent lexeme with
          | none => .panicked
          | some r => .emit r ⟨st2, s.stack, rest⟩
    | .key canClose =>
      if s.lex.head? = some [125] then
        if !canClose then unexpectedOut [125] s
        else parserNextF fuel ⟨.event true, s.stack, s.lex⟩
      else
        match s.lex with
        | [] => .emit (.err .moreLexemes) s
        | lexeme :: rest =>
          match lexeme.head? with
          | none => .panicked
          | some b =>
            if b ≠ 34 then unexpectedOut lexeme ⟨.key canClose, s.stack, rest⟩
            else
              let t := trimLex lexeme
              if utf8Valid t then .emit (.ok (.key t)) ⟨.colon, s.stack, rest⟩
              else .emit (.err .utf8) ⟨.colon, s.stack, rest⟩
    | .colon =>
      match s.lex with
      | [] => .emit (.err .moreLexemes) s
      | lexeme :: rest =>
        if lexeme ≠ [58] then unexpectedOut lexeme ⟨.colon, s.stack, rest⟩
        else parserNextF fuel ⟨.event false, s.stack, rest⟩
    | .comma =>
      if s.lex.head? = some [93] || s.lex.head? = some [125] then
        parserNextF fuel ⟨.event true, s.stack, s.lex⟩
      else
        match s.lex with
        | [] => .emit (.err .moreLexemes) s
        | lexeme :: rest =>
          if lexeme ≠ [44] then unexpectedOut lexeme ⟨.comma, s.stack, rest⟩
          else
            match s.stack with
            | [] => .panicked
            | top :: _ =>
              if top = 91 then parserNextF fuel ⟨.event false, s.stack, rest⟩
              else parserNextF fuel ⟨.key false, s.stack, rest⟩

/-- The configuration built by `Parser::new`: state `Event(false)` and an empty
container stack, in front of the given lexeme stream. -/
def parserNew (lex : List (List Nat)) : PSt := ⟨.event false, [], lex⟩

/-- Fuel bound for one `parserNextF` call that is always sufficient. -/
def innerFuel (s : PSt) : Nat := 2 * s.lex.length + 2

/-- How a finished pipeline run ended: a clean end of stream (including the
stop after a surfaced error), a Rust panic, or fuel exhaustion (never reached
for the bounds used). -/
inductive TermKind where
  | normal
  | panicAbort
  | fuelOut
deriving DecidableEq, Repr

/-- The event pipeline: `Parser` wrapped in the `ResultIterator` of
`errors.rs` (lines 93-120), which records in its `errored` flag that an error
has been yielded and returns `None` from then on.  The collected outputs of
successive `next()` calls, plus how the run ended. -/
def pipelineGo : Nat → PSt → List (Res PErr Event) × TermKind
  | 0, _ => ([], .fuelOut)
  | fuel + 1, s =>
    match parserNextF (innerFuel s) s with
    | .done => ([], .normal)
    | .panicked => ([], .panicAbort)
    | .fuelOut => ([], .fuelOut)
    | .emit (.err e) _ => ([.err e], .normal)
    | .emit (.ok ev) s2 =>
      let t := pipelineGo fuel s2
      (.ok ev :: t.1, t.2)

/-- Run the pipeline on a lexeme stream; fuel `lex.length + 1` suffices since
every emitted event consumes at least one lexeme. -/
def pipelineRun (lex : List (List Nat)) : List (Res PErr Event) × TermKind :=
  pipelineGo (lex.length + 1) (parserNew lex)

/-- The `ResultIterator` of `errors.rs` in isolation, generic over the inner
iterator's item type exactly as in the source: the Boolean is the `errored`
flag; once set, `next` returns `None` without touching the inner iterator. -/
def riGo {ε α : Type} : Bool → List (Res ε α) → List (Res ε α)
  | true, _ => []
  | false, [] => []
  | false, .err e :: r => .err e :: riGo true r
  | false, .ok a :: r => .ok a :: riGo false r

/-- Outputs of a fresh `ResultIterator::new` over an inner item stream. -/
def riOutputs {ε α : Type} (l : List (Res ε α)) : List (Res ε α) := riGo false l

/-- The literal path segment pushed for array contexts ("item"). -/
def strItem : List Nat := [105, 116, 101, 109]

/-- Pop phase of `Prefix::next` (`builder.rs` lines 27-32): on `Key`, `EndMap`
and `EndArray` the trailing path segment is popped (a `Vec::pop` on an empty
path leaves it empty, as `dropLast` does). -/
def pfxPop (e : Event) (path : List (List Nat)) : List (List Nat) :=
  match e with
  | .key _ => path.dropLast
  | .endMap => path.dropLast
  | .endArray => path.dropLast
  | _ => path

/-- Push phase of `Prefix::next` (`builder.rs` lines 36-47): `Key` pushes the
key name, `StartMap` an empty placeholder segment, `StartArray` the literal
segment "item". -/
def pfxPush (e : Event) (path : List (List Nat)) : List (List Nat) :=
  match e with
  | .key v => path ++ [v]
  | .startMap => path ++ [[]]
  | .startArray => path ++ [strItem]
  | _ => path

/-- The `starts_with` test: does the second list start with the first
(the reference path)? -/
def isPfxOf : List (List Nat) → List (List Nat) → Bool
  | [], _ => true
  | _ :: _, [] => false
  | a :: r1, b :: r2 => a == b && isPfxOf r1 r2

/-- The `Prefix` iterator of `builder.rs` (lines 21-55) as a transformation of
the underlying event stream: errors are forwarded as they are (`itry!` returns
them without touching the path); for an event, first the pop phase runs, then
the running path is tested against the reference, then the push phase runs,
and the event is yielded exactly when the test succeeded. -/
def pfxFilter (ref : List (List Nat)) : List (List Nat) → List (Res PErr Event) → List (Res PErr Event)
  | _, [] => []
  | path, .err e :: rest => .err e :: pfxFilter ref path rest
  | path, .ok ev :: rest =>
    let path1 := pfxPop ev path
    let found := isPfxOf ref path1
    let path2 := pfxPush ev path1
    if found then .ok ev :: pfxFilter ref path2 rest else pfxFilter ref path2 rest

/-- The reference-path computation of `Builder::prefix` (`builder.rs` line
104): `str::split_terminator('.')`, which drops a single trailing empty piece
(so the empty string yields the empty reference path). -/
def splitTerm (s : List Nat) : List (List Nat) :=
  let p := s.splitOn 46
  if p.getLast? = some [] then p.dropLast else p

/-- `Builder::prefix(prefix_string)` applied to an event stream: the `Prefix`
iterator configured with the split reference path and an empty initial path. -/
def builderPfx (s : List Nat) (stream : List (Res PErr Event)) : List (Res PErr Event) :=
  pfxFilter (splitTerm s) [] stream

/-- Lexer errors, from `errors.rs` (`enum Error`), restricted to the variants
the lexer constructs. -/
inductive LErr where
  | escape (s : List Nat)
  | unknown (s : List Nat)
  | unterminated
deriving DecidableEq, Repr

/-- Outcome of a lexer operation: a value, an error, a Rust abort
(out-of-bounds index / integer underflow), or fuel exhaustion (an embedding
artefact, unreachable for the bounds used). -/
inductive LexOut (α : Type) where
  | ok (a : α)
  | err (e : LErr)
  | panicked
  | fuelOut
deriving DecidableEq, Repr

/-- Monadic bind for lexer outcomes. -/
def lexBind {α β : Type} (x : LexOut α) (f : α → LexOut β) : LexOut β :=
  match x with
  | .ok a => f a
  | .err e => .err e
  | .panicked => .panicked
  | .fuelOut => .fuelOut

/-- One digit round of `Lexer::hexdecode` (`lexer.rs` lines 69-82): an
exhausted input or a non-hex byte is a malformed-escape error with empty
payload. -/
def hexStepL (v : Nat) (l : List Nat) : LexOut (Nat × List Nat) :=
  match l with
  | [] => .err (.escape [])
  | c :: r =>
    match hexDigitVal c with
    | none => .err (.escape [])
    | some d => .ok (v * 16 + d, r)

/-- `Lexer::hexdecode`: four hex digits accumulated to a scalar value, then
converted with `char::from_u32` (which rejects lone surrogates and values
above 0x10FFFF, yielding a malformed-escape error). -/
def hexdecodeL (l : List Nat) : LexOut (Nat × List Nat) :=
  lexBind (hexStepL 0 l) fun p1 =>
  lexBind (hexStepL p1.1 p1.2) fun p2 =>
  lexBind (hexStepL p2.1 p2.2) fun p3 =>
  lexBind (hexStepL p3.1 p3.2) fun p4 =>
  if charValid p4.1 then .ok p4 else .err (.escape [])

/-- `Lexer::parse_escape` (`lexer.rs` lines 84-101) on the bytes following the
backslash (the function has already swallowed it): `u` starts a hex escape,
`b f n r t` and the quote and backslash map to their character values, and any
other byte is a malformed-escape error carrying that byte.  On an input ending
right after the backslash the source's error path computes
`buf[pos - 1 ..]` with `pos = 0` after the refill, an index underflow: a Rust
abort. -/
def parseEscapeL : List Nat → LexOut (Nat × List Nat)
  | [] => .panicked
  | b :: r =>
    if b = 117 then hexdecodeL r
    else if b = 98 then .ok (8, r)
    else if b = 102 then .ok (12, r)
    else if b = 110 then .ok (10, r)
    else if b = 114 then .ok (13, r)
    else if b = 116 then .ok (9, r)
    else if b = 34 || b = 92 then .ok (b, r)
    else .err (.escape [b])

/-- Decimal digit test used by `consume_int` (`b'0'...b'9'`). -/
def isDigitB (b : Nat) : Bool := 48 ≤ b && b ≤ 57

/-- `Lexer::consume_sign` (`lexer.rs` lines 161-167) in the bufferless model:
a leading minus or plus is consumed; anything else (including an exhausted
input, where the source reads a stale buffer byte that can never be a sign
byte for a fresh 4-KiB buffer holding the whole input) leaves the input
untouched and reports positive. -/
def consumeSignP : List Nat → Bool × List Nat
  | [] => (true, [])
  | b :: r => if b = 45 then (false, r) else if b = 43 then (true, r) else (true, b :: r)

/-- `Lexer::consume_int` (`lexer.rs` lines 169-184) in the bufferless model:
accumulate decimal digits into the accumulator, counting them, and stop at the
first non-digit or at the end of input.  The source accumulator is an `i64`;
it is modelled as an unbounded integer (no claim exercises an overflowing
token). -/
def consumeIntP : ℤ → Nat → List Nat → ℤ × Nat × List Nat
  | acc, count, [] => (acc, count, [])
  | acc, count, b :: r =>
    if isDigitB b then consumeIntP (acc * 10 + ((b : ℤ) - 48)) (count + 1) r
    else (acc, count, b :: r)

/-- The final value assembly of `consume_number` (`lexer.rs` lines 213-219):
the mantissa as a double, divided by a power of ten for a negative exponent
and multiplied for a positive one.  The double arithmetic is modelled exactly
over the rationals. -/
def combineNum (int : ℤ) (pow : ℤ) : ℚ :=
  if pow = 0 then (int : ℚ)
  else if pow < 0 then (int : ℚ) / (10 : ℚ) ^ (-pow).toNat
  else (int : ℚ) * (10 : ℚ) ^ pow.toNat

/-- `Lexer::consume_number` (`lexer.rs` lines 186-220) in the bufferless
model: optional sign, integer digits (zero digits allowed only when a decimal
point follows, otherwise an unknown-lexeme error), optional fraction whose
digit count lowers the power of ten, optional exponent with its own sign and
mandatory digits, then the value assembly. -/
def consumeNumberP (l : List Nat) : LexOut (ℚ × List Nat) :=
  let p0 := consumeSignP l
  let p1 := consumeIntP 0 0 p0.2
  if p1.2.1 = 0 && p1.2.2.head? ≠ some 46 then .err (.unknown [])
  else
    let p2 : ℤ × ℤ × List Nat :=
      match p1.2.2 with
      | 46 :: r =>
        let q := consumeIntP p1.1 0 r
        (q.1, -(q.2.1 : ℤ), q.2.2)
      | _ => (p1.1, (0 : ℤ), p1.2.2)
    let withExp : LexOut (ℤ × List Nat) :=
      match p2.2.2 with
      | 101 :: r | 69 :: r =>
        let q0 := consumeSignP r
        let q1 := consumeIntP 0 0 q0.2
        if q1.2.1 = 0 then .err (.unknown [])
        else .ok (p2.2.1 + (if q0.1 then q1.1 else -q1.1), q1.2.2)
      | _ => .ok (p2.2.1, p2.2.2)
    lexBind withExp fun p =>
      .ok (combineNum (if p0.1 then p2.1 else -p2.1) p.1, p.2)

/-- State of the buffered lexer (`lexer.rs` `struct Lexer`): the fixed-size
read buffer (kept at its full length, retaining stale bytes beyond `len`
exactly as the Rust array does), the current fill level and cursor, and the
remaining bytes of the underlying source. -/
structure BufSt where
  bufsize : Nat
  buf : List Nat
  len : Nat
  pos : Nat
  stream : List Nat
deriving DecidableEq, Repr

/-- The tri-state result of `ensure_buffer` (`enum Buffer`). -/
inductive BufStatus where
  | within
  | reset
  | empty
deriving DecidableEq, Repr

/-- A fresh lexer buffer over an input (`Lexer::new`): a zeroed buffer of the
given size, nothing filled. -/
def bufInit (bufsize : Nat) (input : List Nat) : BufSt :=
  ⟨bufsize, List.replicate bufsize 0, 0, 0, input⟩

/-- One `read` call into the buffer: the source (a cursor/file) yields
`min bufsize remaining` bytes, overwriting the buffer's prefix and leaving the
rest of the array stale. -/
def readB (s : BufSt) : BufSt :=
  let size := min s.bufsize s.stream.length
  ⟨s.bufsize, s.stream.take size ++ s.buf.drop size, size, 0, s.stream.drop size⟩

/-- `Lexer::ensure_buffer` (`lexer.rs` lines 57-67). -/
def ensureB (s : BufSt) : BufStatus × BufSt :=
  if s.pos < s.len then (.within, s)
  else
    let s2 := readB s
    (if 0 < s2.len then .reset else .empty, s2)

/-- Read `buf[pos]`; `none` models the Rust out-of-bounds abort. -/
def bufGet (s : BufSt) : Option Nat := s.buf.get? s.pos

/-- Read `buf[pos]` where the caller has established `pos < len` (so the
access is in bounds); the default is never used then. -/
def bufGetD (s : BufSt) : Nat := (s.buf.get? s.pos).getD 0

/-- Advance the cursor by one. -/
def incPos (s : BufSt) : BufSt := ⟨s.bufsize, s.buf, s.len, s.pos + 1, s.stream⟩

/-- `Lexer::consume_sign` in the buffered model: it reads `buf[pos]` without
calling `ensure_buffer`, so at `pos = bufsize` the array access aborts, and at
`len ≤ pos < bufsize` it reads a stale byte. -/
def consumeSignB (s : BufSt) : LexOut (Bool × BufSt) :=
  match bufGet s with
  | none => .panicked
  | some 45 => .ok (false, incPos s)
  | some 43 => .ok (true, incPos s)
  | some _ => .ok (true, s)

/-- `Lexer::consume_int` in the buffered model: each round ensures the buffer
(stopping at a definitive end of input), then consumes one decimal digit or
stops.  Fuel `stream.length + len + 1` suffices since every round past the
first consumes a byte of the combined buffer/stream supply. -/
def consumeIntB : Nat → ℤ → Nat → BufSt → LexOut (ℤ × Nat × BufSt)
  | 0, _, _, _ => .fuelOut
  | fuel + 1, acc, count, s =>
    let (st, s1) := ensureB s
    match st with
    | .empty => .ok (acc, count, s1)
    | _ =>
      match bufGet s1 with
      | none => .panicked
      | some b =>
        if isDigitB b then consumeIntB fuel (acc * 10 + ((b : ℤ) - 48)) (count + 1) (incPos s1)
        else .ok (acc, count, s1)

/-- Fuel bound for `consumeIntB` that is always sufficient. -/
def intFuel (s : BufSt) : Nat := s.stream.length + s.len + 1

/-- `Lexer::consume_number` in the buffered model, a faithful translation of
`lexer.rs` lines 186-220 including its buffer handling: the decimal-point and
exponent-marker checks guard `buf[pos]` with `pos < len`, but the exponent
sign is read by `consume_sign` with no such guard -- the source reads past the
fill level there. -/
def consumeNumberB (s : BufSt) : LexOut (ℚ × BufSt) :=
  lexBind (consumeSignB s) fun p0 =>
  let sign := p0.1
  lexBind (consumeIntB (intFuel p0.2) 0 0 p0.2) fun p1 =>
  let int0 := p1.1
  let c1 := p1.2.1
  let s2 := p1.2.2
  if c1 = 0 && (s2.len ≤ s2.pos || bufGetD s2 ≠ 46) then .err (.unknown [])
  else
    let fracStep : LexOut (ℤ × ℤ × BufSt) :=
      if s2.pos < s2.len && bufGetD s2 = 46 then
        lexBind (consumeIntB (intFuel (incPos s2)) int0 0 (incPos s2)) fun q =>
          .ok (q.1, -(q.2.1 : ℤ), q.2.2)
      else .ok (int0, 0, s2)
    lexBind fracStep fun p2 =>
    let int1 := p2.1
    let pow1 := p2.2.1
    let s3 := p2.2.2
    let expStep : LexOut (ℤ × BufSt) :=
      if s3.pos < s3.len && (bufGetD s3 = 69 || bufGetD s3 = 101) then
        lexBind (consumeSignB (incPos s3)) fun q0 =>
        lexBind (consumeIntB (intFuel q0.2) 0 0 q0.2) fun q1 =>
          if q1.2.1 = 0 then .err (.unknown [])
          else .ok (pow1 + (if q0.1 then q1.1 else -q1.1), q1.2.2)
      else .ok (pow1, s3)
    lexBind expStep fun p3 =>
      .ok (combineNum (if sign then int1 else -int1) p3.1, p3.2)

/-- Lexing one number token from the start of an input with a given buffer
size: `Lexer::new`, then the initial `ensure_buffer` of `Lexer::next` (the
whitespace loop, trivial for inputs that start with a number byte), then the
dispatch into `consume_number`. -/
def lexNumber (bufsize : Nat) (input : List Nat) : LexOut (ℚ × BufSt) :=
  consumeNumberB (readB (bufInit bufsize input))

/-- The number value produced by `lexNumber`, with the buffer state dropped. -/
def lexNumberVal (bufsize : Nat) (input : List Nat) : LexOut ℚ :=
  lexBind (lexNumber bufsize input) fun p => .ok p.1

/-- Value of a decimal digit string, as accumulated by `consume_int`: a left
fold multiplying by ten and adding each digit value. -/
def digitsVal (ds : List Nat) : ℤ := ds.foldl (fun (a : ℤ) (d : Nat) => a * 10 + ((d : ℤ) - 48)) 0

/-- Auxiliary state predicate for the container-stack invariant: the stack is
empty in the `Closed` state, and non-empty in every state that only arises
inside an open container (`Event(true)`, `Key`, `Colon`, `Comma`).  It holds
for the initial configuration and is preserved by every successful step. -/
def stateOK (s : PSt) : Bool :=
  match s.state with
  | .closed => s.stack.isEmpty
  | .event true => !s.stack.isEmpty
  | .event false => true
  | .key _ => !s.stack.isEmpty
  | .colon => !s.stack.isEmpty
  | .comma => !s.stack.isEmpty

/-- Event stream of the document `{"docs":[{"meta":[[1],{}]}]}` (the nested
part of the repository's `test.json`), used to exhibit the prefix filter's
bracketing behaviour. -/
def demoEvents : List (Res PErr Event) :=
  [.ok .startMap, .ok (.key [100, 111, 99, 115]), .ok .startArray, .ok .startMap,
   .ok (.key [109, 101, 116, 97]), .ok .startArray, .ok .startArray, .ok (.number 1),
   .ok .endArray, .ok .startMap, .ok .endMap, .ok .endArray, .ok .endMap,
   .ok .endArray, .ok .endMap]

/-- The configured path string "docs.item.meta.item" from the repository's
`prefixes` test. -/
def refDocs : List Nat :=
  [100, 111, 99, 115, 46, 105, 116, 101, 109, 46, 109, 101, 116, 97, 46, 105, 116, 101, 109]

/-- Lexeme stream of the input `{"key": "value"} stuff` (the repository's
`additional_data` test input). -/
def lexAdditional : List (List Nat) :=
  [[123], [34, 107, 101, 121, 34], [58], [34, 118, 97, 108, 117, 101, 34], [125],
   [115, 116, 117, 102, 102]]

/-- Lexeme stream of the input `{"key": "value"}` with no trailing data. -/
def lexClean : List (List Nat) :=
  [[123], [34, 107, 101, 121, 34], [58], [34, 118, 97, 108, 117, 101, 34], [125]]

/-- Filtering with an empty reference path forwards every item: the reference
is a prefix of every running path macro-state. -/
theorem pfxFilter_nil_ref (stream : List (Res PErr Event)) :
    ∀ path, pfxFilter [] path stream = stream := by
  induction stream with
  | nil => intro path; rfl
  | cons x rest ih =>
    intro path
    cases x with
    | err e => simp [pfxFilter, ih]
    | ok ev => simp [pfxFilter, isPfxOf, ih]

/-- C1: the Prefix filter pops the trailing path segment on `Key`, `EndMap`
and `EndArray` before the prefix test; on `Key` it then pushes the key name,
on `StartMap` an empty placeholder segment and on `StartArray` the literal
segment "item", in each case after the prefix test (the step equation tests
the popped path and continues with the pushed one); consequently the
`StartMap`/`EndMap`/`StartArray`/`EndArray` events bounding a matched
sub-tree are included in the filtered output, as the concrete
`docs.item.meta.item` run shows: the filtered stream is exactly
`StartArray, Number 1, EndArray, StartMap, EndMap`. -/
theorem c1_path_update_order :
    (∀ k path, pfxPop (.key k) path = path.dropLast) ∧
    (∀ path, pfxPop .endMap path = path.dropLast) ∧
    (∀ path, pfxPop .endArray path = path.dropLast) ∧
    (∀ path, pfxPop .startMap path = path ∧ pfxPop .startArray path = path) ∧
    (∀ k path1, pfxPush (.key k) path1 = path1 ++ [k]) ∧
    (∀ path1, pfxPush .startMap path1 = path1 ++ [[]]) ∧
    (∀ path1, pfxPush .startArray path1 = path1 ++ [strItem]) ∧
    (∀ path1, pfxPush .endMap path1 = path1 ∧ pfxPush .endArray path1 = path1) ∧
    (∀ ref path ev rest,
      pfxFilter ref path (.ok ev :: rest) =
        (if isPfxOf ref (pfxPop ev path) then [.ok ev] else []) ++
          pfxFilter ref (pfxPush ev (pfxPop ev path)) rest) ∧
    (∀ ref path e rest,
      pfxFilter ref path (.err e :: rest) = .err e :: pfxFilter ref path rest) ∧
    builderPfx refDocs demoEvents =
      [.ok .startArray, .ok (.number 1), .ok .endArray, .ok .startMap, .ok .endMap] := by
  refine ⟨fun k path => rfl, fun path => rfl, fun path => rfl, fun path => ⟨rfl, rfl⟩,
    fun k p => rfl, fun p => rfl, fun p => rfl, fun p => ⟨rfl, rfl⟩, ?_,
    fun ref path e rest => rfl, by decide⟩
  intro ref path ev rest
  cases h : isPfxOf ref (pfxPop ev path) <;> simp [pfxFilter, h]

/-- C3: filtering any event stream with the empty-string prefix is the
identity; in particular this holds for every parser pipeline output. -/
theorem c3_empty_string_identity :
    (∀ stream : List (Res PErr Event), builderPfx [] stream = stream) ∧
    (∀ lexemes : List (List Nat),
      builderPfx [] (pipelineRun lexemes).1 = (pipelineRun lexemes).1) := by
  have h : ∀ stream : List (Res PErr Event), builderPfx [] stream = stream := by
    intro stream
    show pfxFilter (splitTerm []) [] stream = stream
    rw [show splitTerm [] = [] from rfl, pfxFilter_nil_ref]
  exact ⟨h, fun lexemes => h _⟩

/-- C5 counterexample: the claim lists `\/` among the decoded escapes, but the
lexer's `parse_escape` rejects the solidus escape: on the string `"\/"` the
byte after the backslash is '/' (47) and the result is a malformed-escape
error, not the character '/'. -/
theorem c5_solidus_not_decoded :
    parseEscapeL [47, 34] = .err (.escape [47]) ∧ parseEscapeL [47, 34] ≠ .ok (47, [34]) :=
  ⟨by decide, by decide⟩

/-- C5 amended: inside a string literal the lexer decodes exactly the escapes
`\" \\ \b \f \n \r \t` and `\uXXXX` (four hex digits, converted with
`char::from_u32`) to their character values; every other byte after a
backslash -- including '/' -- is a malformed-escape error, and the input
`"\uD800"` (a lone unpaired surrogate escape) produces a malformed-escape
error. -/
theorem c5_escape_decode_amended :
    (∀ r, parseEscapeL (34 :: r) = .ok (34, r)) ∧
    (∀ r, parseEscapeL (92 :: r) = .ok (92, r)) ∧
    (∀ r, parseEscapeL (98 :: r) = .ok (8, r)) ∧
    (∀ r, parseEscapeL (102 :: r) = .ok (12, r)) ∧
    (∀ r, parseEscapeL (110 :: r) = .ok (10, r)) ∧
    (∀ r, parseEscapeL (114 :: r) = .ok (13, r)) ∧
    (∀ r, parseEscapeL (116 :: r) = .ok (9, r)) ∧
    (∀ h1 h2 h3 h4 d1 d2 d3 d4 r,
      hexDigitVal h1 = some d1 → hexDigitVal h2 = some d2 →
      hexDigitVal h3 = some d3 → hexDigitVal h4 = some d4 →
      parseEscapeL (117 :: h1 :: h2 :: h3 :: h4 :: r) =
        (if charValid (((d1 * 16 + d2) * 16 + d3) * 16 + d4) then
          .ok (((d1 * 16 + d2) * 16 + d3) * 16 + d4, r)
        else .err (.escape []))) ∧
    (∀ c r, c ≠ 117 → c ≠ 98 → c ≠ 102 → c ≠ 110 → c ≠ 114 → c ≠ 116 → c ≠ 34 → c ≠ 92 →
      parseEscapeL (c :: r) = .err (.escape [c])) ∧
    parseEscapeL [117, 68, 56, 48, 48, 34] = .err (.escape []) := by
  refine ⟨fun r => by norm_num [parseEscapeL], fun r => by norm_num [parseEscapeL],
    fun r => by norm_num [parseEscapeL], fun r => by norm_num [parseEscapeL],
    fun r => by norm_num [parseEscapeL], fun r => by norm_num [parseEscapeL],
    fun r => by norm_num [parseEscapeL], ?_, ?_, by decide⟩
  · intro h1 h2 h3 h4 d1 d2 d3 d4 r hd1 hd2 hd3 hd4
    simp [parseEscapeL, hexdecodeL, hexStepL, lexBind, hd1, hd2, hd3, hd4]
  · intro c r hc1 hc2 hc3 hc4 hc5 hc6 hc7 hc8
    simp [parseEscapeL, hc1, hc2, hc3, hc4, hc5, hc6, hc7, hc8]

/-- C5 amended witness: the unknown escape letter 'w' (the repository's
`bad_escape` test input) is a malformed-escape error. -/
theorem c5_escape_decode_amended_witness :
    parseEscapeL [119] = .err (.escape [119]) :=
  c5_escape_decode_amended.2.2.2.2.2.2.2.2.1 119 [] (by decide) (by decide) (by decide)
    (by decide) (by decide) (by decide) (by decide) (by decide)

/-- C6 (code bug): on the lexeme stream of `{"key": "value"} stuff`, the
pipeline emits the four events of the complete value and then, in the
`Closed` state with a lexeme remaining, `Parser::next` executes
`panic!("Additional data")` instead of surfacing the typed
`Error::AdditionalData` that `errors.rs` defines and the repository's
`additional_data` test expects; with no trailing lexeme the same stream ends
cleanly with `None`. -/
theorem c6_additional_data_panics :
    pipelineRun lexAdditional =
      ([.ok .startMap, .ok (.key [107, 101, 121]), .ok (.string [118, 97, 108, 117, 101]),
        .ok .endMap], .panicAbort) ∧
    pipelineRun lexClean =
      ([.ok .startMap, .ok (.key [107, 101, 121]), .ok (.string [118, 97, 108, 117, 101]),
        .ok .endMap], .normal) ∧
    (∀ n stack lexeme rest, parserNextF (n + 1) ⟨.closed, stack, lexeme :: rest⟩ = .panicked) ∧
    (∀ n stack, parserNextF (n + 1) ⟨.closed, stack, []⟩ = .done) :=
  ⟨by decide, by decide, fun n stack lexeme rest => rfl, fun n stack => rfl⟩

/-- C7: whenever the lexeme stream is exhausted and the parser state is not
`Closed`, the next call emits the `MoreLexemes` ("more lexemes expected")
error with the state unchanged, while the `Closed` state with an exhausted
stream is the clean end of stream (`None`); concretely, the empty input gives
exactly that error, and `[1,` gives `StartArray, Number 1` followed by it. -/
theorem c7_premature_end :
    (∀ n st stack, st ≠ PState.closed →
      parserNextF (n + 1) ⟨st, stack, []⟩ = .emit (.err .moreLexemes) ⟨st, stack, []⟩) ∧
    (∀ n stack, parserNextF (n + 1) ⟨.closed, stack, []⟩ = .done) ∧
    pipelineRun [] = ([.err .moreLexemes], .normal) ∧
    pipelineRun [[91], [49], [44]] =
      ([.ok .startArray, .ok (.number 1), .err .moreLexemes], .normal) := by
  refine ⟨?_, fun n stack => rfl, by decide, ?_⟩
  case refine_2 =>
    rw [show (1 : ℚ) = (digitsVal [49] : ℚ) / (10 : ℚ) ^ (0 : ℕ) from by norm_num [digitsVal]]
    rfl
  intro n st stack hne
  cases st with
  | closed => exact absurd rfl hne
  | event cc => rfl
  | key cc => rfl
  | colon => rfl
  | comma => rfl

/-- C7 witness: the initial state on the empty lexeme stream. -/
theorem c7_premature_end_witness :
    parserNextF 1 ⟨.event false, [], []⟩ = .emit (.err .moreLexemes) ⟨.event false, [], []⟩ :=
  c7_premature_end.1 0 (.event false) [] (by decide)

/-- C8 (code bug): lexing the number token `1e5` with internal buffer size 2
aborts -- after consuming the exponent marker at the end of a buffer fill,
`consume_number` calls `consume_sign`, which reads `buf[pos]` without an
`ensure_buffer` refill and indexes past the array -- while the same input
with the source's 4-KiB buffer yields `Number 100000`; so the event sequence
is not invariant under the internal buffer size. -/
theorem c8_buffer_size_divergence :
    lexNumberVal 2 [49, 101, 53] = .panicked ∧
    lexNumberVal 4096 [49, 101, 53] = .ok 100000 ∧
    lexNumberVal 2 [49, 101, 53] ≠ lexNumberVal 4096 [49, 101, 53] := by
  have h2 : lexNumberVal 2 [49, 101, 53] = .panicked := by decide
  have h4096 : lexNumberVal 4096 [49, 101, 53] = .ok 100000 := by
    rw [show (100000 : ℚ) = combineNum 1 5 from by
      norm_num [combineNum, show Int.toNat 5 = 5 from rfl]]
    rfl
  exact ⟨h2, h4096, by rw [h2, h4096]; exact fun h => by injection h⟩

/-- The `unexpected` helper never emits an `Ok` item. -/
theorem unexpectedOut_ne_ok (lexeme : List Nat) (s : PSt) (r : Event) (s2 : PSt) :
    unexpectedOut lexeme s ≠ .emit (.ok r) s2 := by
  unfold unexpectedOut
  split <;> simp

/-- With the `errored` flag set, `ResultIterator::next` yields nothing more. -/
theorem riGo_true {ε α : Type} (l : List (Res ε α)) : riGo true l = [] := by
  cases l with
  | nil => rfl
  | cons x r => cases x <;> rfl

/-- Any error in a `ResultIterator` output stream is its final element. -/
theorem riGo_err_last {ε α : Type} :
    ∀ (l : List (Res ε α)) (i : Nat) (e : ε),
      (riGo false l).get? i = some (.err e) → (riGo false l).length = i + 1 := by
  intro l
  induction l with
  | nil => intro i e h; simp [riGo] at h
  | cons x r ih =>
    intro i e h
    cases x with
    | err e2 =>
      have hr : riGo false (.err e2 :: r) = [.err e2] := by
        show Res.err e2 :: riGo true r = [.err e2]
        rw [riGo_true]
      rw [hr] at h ⊢
      cases i with
      | zero => rfl
      | succ j => simp at h
    | ok a =>
      have hr : riGo false (.ok a :: r) = .ok a :: riGo false r := rfl
      rw [hr] at h ⊢
      cases i with
      | zero => simp at h
      | succ j =>
        simp only [List.get?] at h
        simp only [List.length_cons]
        rw [ih j e h]

/-- Any error in a pipeline output stream is its final element. -/
theorem pipelineGo_err_last :
    ∀ (fuel : Nat) (s : PSt) (i : Nat) (e : PErr),
      (pipelineGo fuel s).1.get? i = some (.err e) → (pipelineGo fuel s).1.length = i + 1 := by
  intro fuel
  induction fuel with
  | zero => intro s i e h; simp [pipelineGo] at h
  | succ n ih =>
    intro s i e h
    rw [pipelineGo] at h ⊢
    cases hp : parserNextF (innerFuel s) s with
    | done =>
      rw [hp] at h
      exact absurd (show (none : Option (Res PErr Event)) = some (.err e) from h) (by simp)
    | panicked =>
      rw [hp] at h
      exact absurd (show (none : Option (Res PErr Event)) = some (.err e) from h) (by simp)
    | fuelOut =>
      rw [hp] at h
      exact absurd (show (none : Option (Res PErr Event)) = some (.err e) from h) (by simp)
    | emit r s2 =>
      rw [hp] at h
      cases r with
      | err e2 =>
        cases i with
        | zero => rfl
        | succ j =>
          exact absurd (show (none : Option (Res PErr Event)) = some (.err e) from h) (by simp)
      | ok ev =>
        cases i with
        | zero =>
          exact absurd
            (show some (Res.ok ev : Res PErr Event) = some (.err e) from h) (by simp)
        | succ j =>
          have hlen := ih s2 j e h
          show (Res.ok ev :: (pipelineGo n s2).1).length = j + 1 + 1
          simp [hlen]

/-- C2: in the `ResultIterator`-wrapped pipeline, an error is always the final
yielded item -- it is observed exactly once and every subsequent `next()`
returns `None` (the output stream ends right after it); this holds for the
`ResultIterator` over any inner item stream, where moreover the wrapper
forwards the error-free items up to and including the first error and nothing
after it, and for the parser pipeline over any lexeme stream. -/
theorem c2_error_terminal :
    (∀ (ε α : Type) (l : List (Res ε α)) (i : Nat) (e : ε),
      (riOutputs l).get? i = some (.err e) → (riOutputs l).length = i + 1) ∧
    (∀ (ε α : Type) (l1 : List (Res ε α)) (e : ε) (l2 : List (Res ε α)),
      (∀ x ∈ l1, ∃ a, x = .ok a) → riOutputs (l1 ++ .err e :: l2) = l1 ++ [.err e]) ∧
    (∀ (fuel : Nat) (lexemes : List (List Nat)) (i : Nat) (e : PErr),
      (pipelineGo fuel (parserNew lexemes)).1.get? i = some (.err e) →
      (pipelineGo fuel (parserNew lexemes)).1.length = i + 1) := by
  refine ⟨fun ε α l i e h => riGo_err_last l i e h, ?_,
    fun fuel lexemes i e h => pipelineGo_err_last fuel (parserNew lexemes) i e h⟩
  intro ε α l1 e l2 hok
  induction l1 with
  | nil => rw [show riOutputs (([] : List (Res ε α)) ++ .err e :: l2) =
      .err e :: riGo true l2 from rfl, riGo_true]; rfl
  | cons x r ih =>
    obtain ⟨a, rfl⟩ := hok x (by simp)
    rw [show riOutputs ((.ok a :: r) ++ .err e :: l2) =
      .ok a :: riOutputs (r ++ .err e :: l2) from rfl]
    rw [ih (fun y hy => hok y (by simp [hy]))]
    rfl

/-- C2 witness: the empty input errors on the first call and the output stream
ends there. -/
theorem c2_error_terminal_witness :
    (pipelineGo 1 (parserNew [])).1.get? 0 = some (.err .moreLexemes) ∧
    (pipelineGo 1 (parserNew [])).1.length = 0 + 1 :=
  ⟨by decide, c2_error_terminal.2.2 1 [] 0 .moreLexemes (by decide)⟩

/-- Folding digit accumulation from an arbitrary accumulator shifts it by the
corresponding power of ten. -/
theorem digitsVal_shift :
    ∀ (ds : List Nat) (a : ℤ),
      ds.foldl (fun (a : ℤ) (d : Nat) => a * 10 + ((d : ℤ) - 48)) a =
        a * 10 ^ ds.length + digitsVal ds := by
  intro ds
  induction ds with
  | nil => intro a; simp [digitsVal]
  | cons d r ih =>
    intro a
    simp only [List.foldl_cons, List.length_cons]
    rw [ih (a * 10 + ((d : ℤ) - 48))]
    have hd : digitsVal (d :: r) = ((d : ℤ) - 48) * 10 ^ r.length + digitsVal r := by
      have h0 : digitsVal (d :: r) =
          r.foldl (fun (a : ℤ) (d : Nat) => a * 10 + ((d : ℤ) - 48)) (0 * 10 + ((d : ℤ) - 48)) :=
        rfl
      rw [h0, ih (0 * 10 + ((d : ℤ) - 48))]
      ring
    rw [hd]
    ring

/-- Digit-string value of a concatenation. -/
theorem digitsVal_append (a b : List Nat) :
    digitsVal (a ++ b) = digitsVal a * 10 ^ b.length + digitsVal b := by
  unfold digitsVal
  rw [List.foldl_append]
  exact digitsVal_shift b _

/-- A byte that is not a sign byte is left in place by `consume_sign`. -/
theorem consumeSignP_nosign (d : Nat) (l : List Nat) (h1 : d ≠ 45) (h2 : d ≠ 43) :
    consumeSignP (d :: l) = (true, d :: l) := by
  simp [consumeSignP, h1, h2]

/-- The digit loop of `consume_int` over a run of digits followed by a
non-digit (or the end of input): it accumulates exactly the digit-string
value, shifted into the accumulator, counts the digits, and leaves the rest
untouched. -/
theorem consumeIntP_digits :
    ∀ (ds : List Nat) (acc : ℤ) (count : Nat) (r : List Nat),
      (∀ d ∈ ds, isDigitB d = true) → (∀ b, r.head? = some b → isDigitB b = false) →
      consumeIntP acc count (ds ++ r) =
        (acc * 10 ^ ds.length + digitsVal ds, count + ds.length, r) := by
  intro ds
  induction ds with
  | nil =>
    intro acc count r _ hr
    cases r with
    | nil => simp [consumeIntP, digitsVal]
    | cons b rr =>
      have hb := hr b rfl
      simp [consumeIntP, hb, digitsVal]
  | cons d rest ih =>
    intro acc count r hds hr
    have hd : isDigitB d = true := hds d (by simp)
    simp only [List.cons_append, consumeIntP, hd, if_true, List.append_eq]
    rw [ih _ _ _ (fun x hx => hds x (by simp [hx])) hr]
    have hcons : digitsVal (d :: rest) = ((d : ℤ) - 48) * 10 ^ rest.length + digitsVal rest := by
      have h0 : digitsVal (d :: rest) =
          rest.foldl (fun (a : ℤ) (d : Nat) => a * 10 + ((d : ℤ) - 48))
            (0 * 10 + ((d : ℤ) - 48)) :=
        rfl
      rw [h0, digitsVal_shift rest (0 * 10 + ((d : ℤ) - 48))]
      ring
    refine Prod.ext ?_ (Prod.ext ?_ rfl)
    · show (acc * 10 + ((d : ℤ) - 48)) * 10 ^ rest.length + digitsVal rest =
        acc * 10 ^ (d :: rest).length + digitsVal (d :: rest)
      rw [hcons, List.length_cons]
      ring
    · show count + 1 + rest.length = count + (d :: rest).length
      simp [List.length_cons]
      omega

/-- The value assembly of `consume_number` computes exactly
mantissa times ten to the signed power. -/
theorem combineNum_zpow (int pow : ℤ) : combineNum int pow = (int : ℚ) * (10 : ℚ) ^ pow := by
  unfold combineNum
  split_ifs with h1 h2
  · simp [h1]
  · rw [div_eq_mul_inv]
    congr 1
    rw [← zpow_natCast (10 : ℚ) (-pow).toNat, ← zpow_neg]
    congr 1
    omega
  · congr 1
    rw [← zpow_natCast (10 : ℚ) pow.toNat]
    congr 1
    omega

/-- The full decomposition computed by `consume_number` on a token of shape
digits '.' digits 'e' digits: exactly
mantissa times ten to the (exponent minus fractional-digit-count) power. -/
theorem consumeNumberP_decomp (intDs fracDs expDs : List Nat)
    (hi : intDs ≠ []) (he : expDs ≠ [])
    (hdi : ∀ d ∈ intDs, isDigitB d = true) (hdf : ∀ d ∈ fracDs, isDigitB d = true)
    (hde : ∀ d ∈ expDs, isDigitB d = true) :
    consumeNumberP (intDs ++ (46 :: (fracDs ++ (101 :: expDs)))) =
      .ok ((digitsVal (intDs ++ fracDs) : ℚ) *
        (10 : ℚ) ^ (digitsVal expDs - (fracDs.length : ℤ)), []) := by
  rcases intDs with _ | ⟨d0, it⟩
  · exact absurd rfl hi
  rcases expDs with _ | ⟨e0, et⟩
  · exact absurd rfl he
  have hd0 := hdi d0 (by simp)
  have he0 := hde e0 (by simp)
  have hd045 : d0 ≠ 45 := by simp [isDigitB] at hd0; omega
  have hd043 : d0 ≠ 43 := by simp [isDigitB] at hd0; omega
  have he045 : e0 ≠ 45 := by simp [isDigitB] at he0; omega
  have he043 : e0 ≠ 43 := by simp [isDigitB] at he0; omega
  have hr46 : ∀ b : Nat,
      (46 :: (fracDs ++ 101 :: (e0 :: et))).head? = some b → isDigitB b = false := by
    intro b hb
    simp only [List.head?, Option.some.injEq] at hb
    subst hb
    decide
  have hrE : ∀ b : Nat, (101 :: (e0 :: et)).head? = some b → isDigitB b = false := by
    intro b hb
    simp only [List.head?, Option.some.injEq] at hb
    subst hb
    decide
  have hrNil : ∀ b : Nat, ([] : List Nat).head? = some b → isDigitB b = false := by
    intro b hb; simp at hb
  have h1 : consumeSignP (d0 :: (it ++ (46 :: (fracDs ++ 101 :: (e0 :: et))))) =
      (true, d0 :: (it ++ (46 :: (fracDs ++ 101 :: (e0 :: et))))) :=
    consumeSignP_nosign _ _ hd045 hd043
  have h2 := consumeIntP_digits (d0 :: it) 0 0 (46 :: (fracDs ++ 101 :: (e0 :: et))) hdi hr46
  simp only [List.cons_append, zero_mul, zero_add, Nat.zero_add] at h2
  have h3 := consumeIntP_digits fracDs (digitsVal (d0 :: it)) 0 (101 :: (e0 :: et)) hdf hrE
  simp only [Nat.zero_add] at h3
  have h4 : consumeSignP (e0 :: et) = (true, e0 :: et) := consumeSignP_nosign _ _ he045 he043
  have h5 := consumeIntP_digits (e0 :: et) 0 0 [] hde hrNil
  simp only [List.append_nil, zero_mul, zero_add, Nat.zero_add] at h5
  simp only [consumeNumberP, List.cons_append]
  simp only [h1, h2, h3, h4, h5]
  have h6 := digitsVal_append (d0 :: it) fracDs
  simp only [List.cons_append] at h6
  simp [lexBind, combineNum_zpow, h6, neg_add_eq_sub]

/-- C4: `consume_number` parses a digits-point-digits-exponent token to
exactly mantissa times ten to the (exponent minus fractional-digit-count)
power, where the mantissa accumulates the integer and fractional digits; the
value assembly equals mantissa times ten to the signed power for all inputs;
the tokens `1e2`, `0.5` and `10000000000` parse to 100, 1/2 and 10^10
exactly; and a token with zero integer digits that is not followed by a
decimal point is an unknown-lexeme error. -/
theorem c4_number_parse :
    (∀ intDs fracDs expDs : List Nat,
      intDs ≠ [] → expDs ≠ [] →
      (∀ d ∈ intDs, isDigitB d = true) → (∀ d ∈ fracDs, isDigitB d = true) →
      (∀ d ∈ expDs, isDigitB d = true) →
      consumeNumberP (intDs ++ (46 :: (fracDs ++ (101 :: expDs)))) =
        .ok ((digitsVal (intDs ++ fracDs) : ℚ) *
          (10 : ℚ) ^ (digitsVal expDs - (fracDs.length : ℤ)), [])) ∧
    (∀ int pow : ℤ, combineNum int pow = (int : ℚ) * (10 : ℚ) ^ pow) ∧
    consumeNumberP [49, 101, 50] = .ok (100, []) ∧
    consumeNumberP [48, 46, 53] = .ok (1 / 2, []) ∧
    consumeNumberP [49, 48, 48, 48, 48, 48, 48, 48, 48, 48, 48] = .ok (10000000000, []) ∧
    (∀ l : List Nat,
      (consumeIntP 0 0 (consumeSignP l).2).2.1 = 0 →
      ((consumeIntP 0 0 (consumeSignP l).2).2.2).head? ≠ some 46 →
      consumeNumberP l = .err (.unknown [])) := by
  refine ⟨consumeNumberP_decomp, combineNum_zpow, ?_, ?_, ?_, ?_⟩
  · rw [show (100 : ℚ) = combineNum 1 2 from by
      norm_num [combineNum, show Int.toNat 2 = 2 from rfl]]
    rfl
  · rw [show (1 / 2 : ℚ) = combineNum 5 (-1) from by
      norm_num [combineNum, show (-(-1 : ℤ)).toNat = 1 from rfl]]
    rfl
  · rw [show (10000000000 : ℚ) = combineNum 10000000000 0 from by norm_num [combineNum]]
    rfl
  · intro l h0 h46
    simp [consumeNumberP, h0, h46]

/-- C4 witness: the token `1.5e2` decomposes into mantissa 15 with one
fractional digit and exponent 2, hence the value 150. -/
theorem c4_number_parse_witness :
    consumeNumberP [49, 46, 53, 101, 50] =
      .ok ((digitsVal ([49] ++ [53]) : ℚ) *
        (10 : ℚ) ^ (digitsVal [50] - (([53] : List Nat).length : ℤ)), []) ∧
    (digitsVal ([49] ++ [53]) : ℚ) *
        (10 : ℚ) ^ (digitsVal [50] - (([53] : List Nat).length : ℤ)) = 150 :=
  ⟨c4_number_parse.1 [49] [53] [50] (by decide) (by decide) (by decide) (by decide) (by decide),
   by norm_num [digitsVal]⟩

/-- Trimming a quote-delimited lexeme leaves exactly the content between the
quotes. -/
theorem trimLex_quote (content : List Nat) : trimLex (34 :: (content ++ [34])) = content := by
  simp [trimLex]

/-- C10: in the `Key` state a string lexeme produces a `Key` event carrying
the raw text between the quotes with escapes left undecoded (only the quotes
trimmed, plus UTF-8 validation), whereas `process_event` turns a string
lexeme into a `String` event by running `unescape` on the trimmed content;
concretely the text `a\nb` yields a `Key` holding the bytes
`a backslash n b` but a `String` holding `a newline b`. -/
theorem c10_key_raw_string_decoded :
    (∀ (n : Nat) (cc : Bool) (stack : List Nat) (content rest : _),
      utf8Valid content = true →
      parserNextF (n + 1) ⟨.key cc, stack, (34 :: (content ++ [34])) :: rest⟩ =
        .emit (.ok (.key content)) ⟨.colon, stack, rest⟩) ∧
    (∀ content : List Nat,
      processEvent (34 :: (content ++ [34])) =
        (match unescape content with
          | .ok s => some (.ok (.string s))
          | .err e => some (.err e)
          | .panicked => none)) ∧
    unescape [97, 92, 110, 98] = .ok [97, 10, 98] ∧
    pipelineRun [[34, 97, 92, 110, 98, 34]] = ([.ok (.string [97, 10, 98])], .normal) ∧
    pipelineRun [[123], [34, 97, 92, 110, 98, 34], [58], [49], [125]] =
      ([.ok .startMap, .ok (.key [97, 92, 110, 98]), .ok (.number 1), .ok .endMap],
        .normal) := by
  refine ⟨?_, ?_, by decide, by decide, ?_⟩
  · intro n cc stack content rest hv
    simp [parserNextF, trimLex_quote, hv]
  · intro content
    simp [processEvent, trimLex_quote]
  · rw [show (1 : ℚ) = (digitsVal [49] : ℚ) / (10 : ℚ) ^ (0 : ℕ) from by norm_num [digitsVal]]
    rfl

/-- C10 witness: the one-byte key `a`. -/
theorem c10_key_raw_string_decoded_witness :
    parserNextF 1 ⟨.key true, [123], [[34, 97, 34]]⟩ =
      .emit (.ok (.key [97])) ⟨.colon, [123], []⟩ :=
  c10_key_raw_string_decoded.1 0 true [123] [97] [] (by decide)

/-- Preservation of the stack/state discipline: from a configuration
satisfying `stateOK`, every successfully emitted event leads to a
configuration that satisfies it again and in which the stack is empty exactly
when the state is `Closed`. -/
theorem stateOK_preserved :
    ∀ (fuel : Nat) (s : PSt) (e : Event) (s2 : PSt),
      stateOK s = true → parserNextF fuel s = .emit (.ok e) s2 →
      stateOK s2 = true ∧ (s2.state = .closed ↔ s2.stack = []) := by
  intro fuel
  induction fuel with
  | zero => intro s e s2 _ h; exact absurd h (by simp [parserNextF])
  | succ n ih =>
    intro s e s2 hok h
    obtain ⟨st, stack, lex⟩ := s
    cases st with
    | closed =>
      cases lex with
      | nil => simp [parserNextF] at h
      | cons a b => simp [parserNextF] at h
    | event cc =>
      cases lex with
      | nil => simp [parserNextF] at h
      | cons lexeme rest =>
        simp only [parserNextF] at h
        repeat' split at h
        all_goals first
          | exact absurd h (unexpectedOut_ne_ok _ _ _ _)
          | (simp only [POut.emit.injEq] at h
             obtain ⟨h1, h2⟩ := h
             subst h2
             first
               | (split <;> simp_all [stateOK])
               | simp_all [stateOK])
          | simp at h
    | key cc =>
      simp only [parserNextF] at h
      split at h
      · split at h
        · exact absurd h (unexpectedOut_ne_ok _ _ _ _)
        · refine ih _ _ _ ?_ h
          exact hok
      · split at h
        · simp at h
        · split at h
          · simp at h
          · split at h
            · exact absurd h (unexpectedOut_ne_ok _ _ _ _)
            · split at h
              · simp only [POut.emit.injEq] at h
                obtain ⟨h1, h2⟩ := h
                subst h2
                cases stack with
                | nil => simp [stateOK] at hok
                | cons t ts => simp [stateOK]
              · simp at h
    | colon =>
      simp only [parserNextF] at h
      split at h
      · simp at h
      · split at h
        · exact absurd h (unexpectedOut_ne_ok _ _ _ _)
        · refine ih _ _ _ ?_ h
          rfl
    | comma =>
      simp only [parserNextF] at h
      split at h
      · refine ih _ _ _ ?_ h
        exact hok
      · split at h
        · simp at h
        · split at h
          · exact absurd h (unexpectedOut_ne_ok _ _ _ _)
          · split at h
            · simp at h
            · split at h
              · refine ih _ _ _ ?_ h
                rfl
              · refine ih _ _ _ ?_ h
                rfl

/-- C9 counterexample: the parser configuration built by `Parser::new` -- the
reachable state before any lexeme is consumed, e.g. on the input `1` -- has an
empty container stack while its state is `Event(false)`, not `Closed`, so the
claimed invariant "the stack is empty exactly when the state is Closed" fails
in a reachable state. -/
theorem c9_claim_false_at_init :
    (parserNew [[49]]).stack = [] ∧ (parserNew [[49]]).state ≠ .closed ∧
    ¬((parserNew [[49]]).state = .closed ↔ (parserNew [[49]]).stack = []) :=
  ⟨rfl, by decide, by decide⟩

/-- C9 amended: the container stack is pushed on `StartArray`/`StartMap` and
popped with a kind check on `EndArray`/`EndMap`; a closer whose kind does not
match the popped opener (or arriving on an empty stack) yields the fatal
`Unmatched` error and is never silently corrected; the initial configuration
satisfies the auxiliary discipline `stateOK`; and in every configuration
reached through successfully emitted events -- that is, after the first event
of an error-free run, though not in the initial configuration itself -- the
stack is empty exactly when the state is `Closed`. -/
theorem c9_stack_discipline_amended :
    (∀ (n : Nat) (cc : Bool) (stack : List Nat) (rest : List (List Nat)),
      parserNextF (n + 1) ⟨.event cc, stack, [91] :: rest⟩ =
        .emit (.ok .startArray) ⟨.event true, 91 :: stack, rest⟩) ∧
    (∀ (n : Nat) (cc : Bool) (stack : List Nat) (rest : List (List Nat)),
      parserNextF (n + 1) ⟨.event cc, stack, [123] :: rest⟩ =
        .emit (.ok .startMap) ⟨.key true, 123 :: stack, rest⟩) ∧
    (∀ (n : Nat) (stack : List Nat) (rest : List (List Nat)),
      parserNextF (n + 1) ⟨.event true, 91 :: stack, [93] :: rest⟩ =
        .emit (.ok .endArray) ⟨if stack = [] then .closed else .comma, stack, rest⟩) ∧
    (∀ (n : Nat) (stack : List Nat) (rest : List (List Nat)),
      parserNextF (n + 1) ⟨.event true, 123 :: stack, [125] :: rest⟩ =
        .emit (.ok .endMap) ⟨if stack = [] then .closed else .comma, stack, rest⟩) ∧
    (∀ (n : Nat) (stack : List Nat) (rest : List (List Nat)),
      parserNextF (n + 1) ⟨.event true, 123 :: stack, [93] :: rest⟩ =
        .emit (.err (.unmatched 93)) ⟨.event true, stack, rest⟩) ∧
    (∀ (n : Nat) (stack : List Nat) (rest : List (List Nat)),
      parserNextF (n + 1) ⟨.event true, 91 :: stack, [125] :: rest⟩ =
        .emit (.err (.unmatched 125)) ⟨.event true, stack, rest⟩) ∧
    (∀ (n : Nat) (rest : List (List Nat)),
      parserNextF (n + 1) ⟨.event true, [], [93] :: rest⟩ =
        .emit (.err (.unmatched 93)) ⟨.event true, [], rest⟩) ∧
    (∀ lexemes : List (List Nat), stateOK (parserNew lexemes) = true) ∧
    (∀ (fuel : Nat) (s : PSt) (e : Event) (s2 : PSt),
      stateOK s = true → parserNextF fuel s = .emit (.ok e) s2 →
      stateOK s2 = true ∧ (s2.state = .closed ↔ s2.stack = [])) :=
  ⟨fun n cc stack rest => rfl, fun n cc stack rest => rfl, fun n stack rest => rfl,
   fun n stack rest => rfl, fun n stack rest => rfl, fun n stack rest => rfl,
   fun n rest => rfl, fun lexemes => rfl, stateOK_preserved⟩

/-- C9 amended witness: one step on the input `[]`'s lexemes from the initial
configuration emits `StartArray` and reaches a configuration with a non-empty
stack in a non-`Closed` state. -/
theorem c9_stack_discipline_amended_witness :
    stateOK (parserNew [[91], [93]]) = true ∧
    (stateOK (⟨.event true, [91], [[93]]⟩ : PSt) = true ∧
      ((⟨.event true, [91], [[93]]⟩ : PSt).state = .closed ↔
        (⟨.event true, [91], [[93]]⟩ : PSt).stack = [])) :=
  ⟨by decide,
   c9_stack_discipline_amended.2.2.2.2.2.2.2.2 3 (parserNew [[91], [93]]) .startArray
     ⟨.event true, [91], [[93]]⟩ (by decide) (by decide)⟩
